import Mathlib

/-!
Shallow embedding of the market-research agent of this repository
(`app/agent/market_agent.py`, `app/agent/tools.py`): the JSON layer used by
`_parse_and_validate_output` (modelling Python `json.loads` / `json.dumps`
on the JSON fragment the program exercises: objects, arrays, strings with
escapes, decimal numbers without exponent notation, `true`/`false`/`null`),
the pydantic `MarketResearchOutput` schema checks, the `research` retry
loop, and the two mocked tools.  Python machine floats are idealised as
exact decimal numbers (a mantissa/power-of-ten pair); randomness is passed
in as explicit draw arguments; the reasoning driver is passed in as an
explicit outcome sequence.
-/

namespace MarketAgent

/-- The character `"` (34). -/
def quoteC : Char := Char.ofNat 34

/-- The character `\` (92). -/
def backslashC : Char := Char.ofNat 92

/-- The character `\x7b` (123). -/
def lbraceC : Char := Char.ofNat 123

/-- The character `\x7d` (125). -/
def rbraceC : Char := Char.ofNat 125

/-- Numeric value of a decimal digit character. -/
def digitVal (c : Char) : Nat := c.toNat - 48

/-- Decimal digit characters `0`-`9`. -/
def isDigitC (c : Char) : Bool := 48 ≤ c.toNat && c.toNat ≤ 57

/-- A JSON number as Python `json.loads` reads it, idealised as the exact
decimal `mant / 10 ^ exp10` (Python parses to a binary float; the claims
under study never exercise the rounding gap). -/
structure JNum where
  mant : Int
  exp10 : Nat
deriving DecidableEq, Repr

/-- The rational value of a `JNum`. -/
def JNum.val (n : JNum) : ℚ := (n.mant : ℚ) / (10 : ℚ) ^ n.exp10

/-- JSON values as produced by Python `json.loads`. -/
inductive JValue where
  | null : JValue
  | bool : Bool → JValue
  | num : JNum → JValue
  | str : String → JValue
  | arr : List JValue → JValue
  | obj : List (String × JValue) → JValue
deriving Repr

/-- JSON insignificant whitespace (space, tab, newline, carriage return). -/
def isWs (c : Char) : Bool := c.toNat = 32 || c.toNat = 9 || c.toNat = 10 || c.toNat = 13

/-- Drop leading JSON whitespace. -/
def skipWs : List Char → List Char
  | [] => []
  | c :: cs => if isWs c then skipWs cs else c :: cs

/-- Translate a JSON string escape character to the character it denotes. -/
def unescapeChar (c : Char) : Option Char :=
  if c = quoteC ∨ c = backslashC ∨ c = '/' then some c
  else if c = 'n' then some (Char.ofNat 10)
  else if c = 't' then some (Char.ofNat 9)
  else if c = 'r' then some (Char.ofNat 13)
  else if c = 'b' then some (Char.ofNat 8)
  else if c = 'f' then some (Char.ofNat 12)
  else none

/-- Parse the body of a JSON string (the input starts right after the opening
quote); returns the decoded characters and the input after the closing
quote. -/
def parseStringBody : List Char → Option (List Char × List Char)
  | [] => none
  | c :: cs =>
    if c = quoteC then some ([], cs)
    else if c = backslashC then
      match cs with
      | [] => none
      | e :: cs2 =>
        match unescapeChar e with
        | some u => (parseStringBody cs2).map (fun p => (u :: p.1, p.2))
        | none => none
    else (parseStringBody cs).map (fun p => (c :: p.1, p.2))

/-- Accumulate a run of decimal digits: returns the value read so far, the
number of digits consumed, and the rest of the input. -/
def parseDigitsAux : List Char → Nat → Nat → Nat × Nat × List Char
  | [], acc, cnt => (acc, cnt, [])
  | c :: cs, acc, cnt =>
    if isDigitC c then parseDigitsAux cs (acc * 10 + digitVal c) (cnt + 1)
    else (acc, cnt, c :: cs)

/-- Parse the digits of a JSON number after the optional minus sign:
integer digits, then an optional fraction; `neg` records the sign read. -/
def parseNumberCore (neg : Bool) : List Char → Option (JNum × List Char)
  | [] => none
  | d :: ds =>
    if isDigitC d then
      let r1 := parseDigitsAux (d :: ds) 0 0
      let i := r1.1
      match r1.2.2 with
      | p :: rest2 =>
        if p = '.' then
          match rest2 with
          | q :: _ =>
            if isDigitC q then
              let r2 := parseDigitsAux rest2 0 0
              let m : Int := (i : Int) * (10 : Int) ^ r2.2.1 + (r2.1 : Int)
              some (⟨if neg then -m else m, r2.2.1⟩, r2.2.2)
            else none
          | [] => none
        else some (⟨if neg then -(i : Int) else (i : Int), 0⟩, p :: rest2)
      | [] => some (⟨if neg then -(i : Int) else (i : Int), 0⟩, [])
    else none

/-- Parse a JSON number (optional minus sign, integer digits, optional
fraction); exponent notation is outside the modelled fragment. -/
def parseNumber (l : List Char) : Option (JNum × List Char) :=
  match l with
  | c :: cs => if c = '-' then parseNumberCore true cs else parseNumberCore false (c :: cs)
  | [] => none

mutual

/-- Parse one JSON value (fuel-indexed recursive descent); leading
whitespace is skipped. -/
def parseVal : Nat → List Char → Option (JValue × List Char)
  | 0, _ => none
  | fuel + 1, l =>
    match skipWs l with
    | [] => none
    | c :: cs =>
      if c = quoteC then
        (parseStringBody cs).map (fun p => (JValue.str ⟨p.1⟩, p.2))
      else if c = lbraceC then
        match skipWs cs with
        | d :: ds =>
          if d = rbraceC then some (JValue.obj [], ds)
          else (parseMembers fuel (d :: ds)).map (fun p => (JValue.obj p.1, p.2))
        | [] => none
      else if c = '[' then
        match skipWs cs with
        | d :: ds =>
          if d = ']' then some (JValue.arr [], ds)
          else (parseElems fuel (d :: ds)).map (fun p => (JValue.arr p.1, p.2))
        | [] => none
      else if c = 't' then
        match cs with
        | c1 :: c2 :: c3 :: rest =>
          if c1 = 'r' ∧ c2 = 'u' ∧ c3 = 'e' then some (JValue.bool true, rest) else none
        | _ => none
      else if c = 'f' then
        match cs with
        | c1 :: c2 :: c3 :: c4 :: rest =>
          if c1 = 'a' ∧ c2 = 'l' ∧ c3 = 's' ∧ c4 = 'e' then some (JValue.bool false, rest)
          else none
        | _ => none
      else if c = 'n' then
        match cs with
        | c1 :: c2 :: c3 :: rest =>
          if c1 = 'u' ∧ c2 = 'l' ∧ c3 = 'l' then some (JValue.null, rest) else none
        | _ => none
      else
        (parseNumber (c :: cs)).map (fun p => (JValue.num p.1, p.2))

/-- Parse the comma-separated elements of a non-empty JSON array, up to and
including the closing bracket. -/
def parseElems : Nat → List Char → Option (List JValue × List Char)
  | 0, _ => none
  | fuel + 1, l =>
    match parseVal fuel l with
    | none => none
    | some (v, r) =>
      match skipWs r with
      | c :: cs =>
        if c = ',' then (parseElems fuel cs).map (fun p => (v :: p.1, p.2))
        else if c = ']' then some ([v], cs)
        else none
      | [] => none

/-- Parse the comma-separated members of a non-empty JSON object, up to and
including the closing brace. -/
def parseMembers : Nat → List Char → Option (List (String × JValue) × List Char)
  | 0, _ => none
  | fuel + 1, l =>
    match skipWs l with
    | c :: cs =>
      if c = quoteC then
        match parseStringBody cs with
        | none => none
        | some (k, r1) =>
          match skipWs r1 with
          | d :: ds =>
            if d = ':' then
              match parseVal fuel ds with
              | none => none
              | some (v, r2) =>
                match skipWs r2 with
                | e :: es =>
                  if e = ',' then
                    (parseMembers fuel es).map (fun p => ((⟨k⟩, v) :: p.1, p.2))
                  else if e = rbraceC then some ([(⟨k⟩, v)], es)
                  else none
                | [] => none
            else none
          | [] => none
      else none
    | [] => none

end

/-- The error classes of the Python exceptions this program raises or
catches: pydantic `ValidationError`, `ValueError` (including
`json.JSONDecodeError`), and any other `Exception`. -/
inductive PyError where
  | validationError : String → PyError
  | valueError : String → PyError
  | otherError : String → PyError
deriving DecidableEq, Repr

/-- Model of Python `json.loads` on the modelled JSON fragment: parse one
value, allowing surrounding whitespace, and require the whole input to be
consumed; any failure is a `json.JSONDecodeError` (a `ValueError`). -/
def json_loads (s : String) : Except PyError JValue :=
  match parseVal (s.data.length + 2) s.data with
  | some (v, rest) =>
    if skipWs rest = [] then Except.ok v
    else Except.error (PyError.valueError "JSONDecodeError: Extra data")
  | none => Except.error (PyError.valueError "JSONDecodeError: Expecting value")

/-- Python `str.upper()` on the ASCII range the program exercises. -/
def pyUpper (s : String) : String := ⟨s.data.map Char.toUpper⟩

/-- Python dict built by `json.loads` from an object's member list: a later
binding of the same key wins. -/
def dictGet (fields : List (String × JValue)) (k : String) : Option JValue :=
  (fields.reverse.find? (fun p => p.1 == k)).map Prod.snd

/-- `0.0 <= mant / 10 ^ exp10 <= 1.0`, the pydantic `ge=0.0, le=1.0` bound
on `sentiment_score`, decided on the exact decimal representation. -/
def JNum.inUnit (n : JNum) : Bool := 0 ≤ n.mant ∧ n.mant ≤ (10 : Int) ^ n.exp10

/-- The validated output record of `MarketResearchOutput` (pydantic model:
`asset`, `risk_level`, `sentiment_score`, `tools_used`, optional
`analysis`); also the shape of its `model_dump()` dictionary. -/
structure MarketResearchOutput where
  asset : String
  risk_level : String
  sentiment_score : JNum
  tools_used : List String
  analysis : Option String
deriving DecidableEq, Repr

/-- Read a JSON value as a Python `str`, as the pydantic `str` field type
does (pydantic v2 performs no int-to-str coercion). -/
def asPyStr : JValue → Option String
  | JValue.str s => some s
  | _ => none

/-- Read a JSON array's elements as Python `str` values, as the pydantic
`List[str]` field type does; any non-string element fails. -/
def asStrList : List JValue → Option (List String)
  | [] => some []
  | v :: vs =>
    match asPyStr v with
    | some s => (asStrList vs).map (fun ss => s :: ss)
    | none => none

/-- Pydantic construction `MarketResearchOutput(**output_dict)`: required
fields must be present and well-typed, `sentiment_score` must satisfy its
`ge=0.0, le=1.0` bounds, extra keys are ignored, a missing or `null`
`analysis` becomes `None`; any violation raises `ValidationError`. -/
def constructOutput (fields : List (String × JValue)) : Except PyError MarketResearchOutput :=
  match (dictGet fields "asset").bind asPyStr with
  | none => Except.error (PyError.validationError "ValidationError: asset")
  | some asset =>
    match (dictGet fields "risk_level").bind asPyStr with
    | none => Except.error (PyError.validationError "ValidationError: risk_level")
    | some risk =>
      match dictGet fields "sentiment_score" with
      | some (JValue.num n) =>
        if n.inUnit then
          match dictGet fields "tools_used" with
          | some (JValue.arr xs) =>
            match asStrList xs with
            | some tools =>
              match dictGet fields "analysis" with
              | none => Except.ok ⟨asset, risk, n, tools, none⟩
              | some JValue.null => Except.ok ⟨asset, risk, n, tools, none⟩
              | some (JValue.str s) => Except.ok ⟨asset, risk, n, tools, some s⟩
              | some _ => Except.error (PyError.validationError "ValidationError: analysis")
            | none => Except.error (PyError.validationError "ValidationError: tools_used")
          | _ => Except.error (PyError.validationError "ValidationError: tools_used")
        else Except.error (PyError.validationError "ValidationError: sentiment_score")
      | _ => Except.error (PyError.validationError "ValidationError: sentiment_score")

/-- `MarketResearchOutput.validate_risk_level`: raises `ValueError` unless
`risk_level` is one of `Low`, `Medium`, `High`. -/
def validate_risk_level (m : MarketResearchOutput) : Except PyError MarketResearchOutput :=
  if m.risk_level = "Low" ∨ m.risk_level = "Medium" ∨ m.risk_level = "High" then Except.ok m
  else Except.error (PyError.valueError
    ("Invalid risk_level: " ++ m.risk_level ++ ". Must be Low, Medium, or High"))

/-- Index of the first occurrence of `c` in `l` (Python `str.find`,
with `none` for -1). -/
def strFind (l : List Char) (c : Char) : Option Nat := l.findIdx? (fun x => x == c)

/-- Index of the last occurrence of `c` in `l` (Python `str.rfind`,
with `none` for -1). -/
def strRfind (l : List Char) (c : Char) : Option Nat :=
  (l.reverse.findIdx? (fun x => x == c)).map (fun i => l.length - 1 - i)

/-- Lines 164-173 of `market_agent.py`: `json.loads` on the whole text; on
`JSONDecodeError`, one extraction of the substring from the first `\x7b` to
the last `\x7d` (Python slice `output_text[start_idx:end_idx + 1]`) parsed
strictly; if either brace is missing, `ValueError("Could not find valid
JSON in agent output")`. -/
def extract_json (output_text : String) : Except PyError JValue :=
  match json_loads output_text with
  | Except.ok v => Except.ok v
  | Except.error _ =>
    match strFind output_text.data lbraceC, strRfind output_text.data rbraceC with
    | some start_idx, some end_idx =>
      json_loads ⟨(output_text.data.drop start_idx).take (end_idx + 1 - start_idx)⟩
    | _, _ => Except.error (PyError.valueError "Could not find valid JSON in agent output")

/-- `MarketResearchAgent._parse_and_validate_output`: extract JSON, build
the pydantic model (`**` of a non-dict raises `TypeError`), run
`validate_risk_level`, then overwrite `asset` with `asset.upper()` only
when the parsed asset differs from the request case-insensitively, and
return `model_dump()`. -/
def parse_and_validate_output (output_text : String) (asset : String) :
    Except PyError MarketResearchOutput :=
  match extract_json output_text with
  | Except.error e => Except.error e
  | Except.ok (JValue.obj fields) =>
    match constructOutput fields with
    | Except.error e => Except.error e
    | Except.ok validated =>
      match validate_risk_level validated with
      | Except.error e => Except.error e
      | Except.ok validated2 =>
        Except.ok
          (if pyUpper validated2.asset ≠ pyUpper asset then
            { validated2 with asset := pyUpper asset }
          else validated2)
  | Except.ok _ =>
    Except.error (PyError.otherError "TypeError: argument after ** must be a mapping")

/-- One `(action, observation)` pair of `result["intermediate_steps"]`. -/
structure IntermediateStep where
  tool : String
  tool_input : String
  log : String
  observation : String
deriving DecidableEq, Repr

/-- One entry of the result's `tool_calls` list. -/
structure ToolCall where
  tool : String
  input : String
  output : String
deriving DecidableEq, Repr

/-- One entry of the result's `agent_steps` list. -/
structure AgentStep where
  action : String
  thought : String
deriving DecidableEq, Repr

/-- The dictionary `research` returns (`execution_time_ms`, a wall-clock
reading, is not modelled). -/
structure ResearchResult where
  output : MarketResearchOutput
  agent_steps : List AgentStep
  tool_calls : List ToolCall
  success : Bool
  error : Option String
deriving DecidableEq, Repr

/-- Outcome of one `self.agent_executor.invoke` call: either a result
dictionary carrying the output text and the intermediate steps, or a raised
exception. -/
inductive DriverOutcome where
  | ret : String → List IntermediateStep → DriverOutcome
  | exn : PyError → DriverOutcome
deriving Repr

/-- The message of line 143: `Failed to generate valid output after
{max_retries} attempts: {e}`. -/
def exhaustMsg (max_retries : Nat) (e : String) : String :=
  "Failed to generate valid output after " ++ toString max_retries ++ " attempts: " ++ e

/-- The body of `MarketResearchAgent.research`: the `for attempt in
range(max_retries)` loop, with `agent_steps` / `tool_calls` threaded as the
two lists the Python code allocates once before the loop and mutates in
place.  `driver k` is the outcome of the `invoke` call of attempt `k`
(attempts count from 0 as in Python).  Only pydantic `ValidationError` is
caught for retry; every other exception is re-raised by the
`except Exception` arm.  The second component counts the `invoke` calls
performed. -/
def research_loop (driver : Nat → DriverOutcome) (asset : String) (max_retries : Nat) :
    Nat → Nat → List AgentStep → List ToolCall → Except PyError ResearchResult × Nat
  | 0, _, _, _ => (Except.error (PyError.otherError "Research failed unexpectedly"), 0)
  | remaining + 1, attempt, agent_steps, tool_calls =>
    match driver attempt with
    | DriverOutcome.exn e =>
      match e with
      | PyError.validationError m =>
        if attempt = max_retries - 1 then
          (Except.error (PyError.otherError (exhaustMsg max_retries m)), 1)
        else
          let r := research_loop driver asset max_retries remaining (attempt + 1)
            agent_steps tool_calls
          (r.1, r.2 + 1)
      | e => (Except.error e, 1)
    | DriverOutcome.ret output_text steps =>
      let tool_calls2 := tool_calls ++ steps.map (fun s => ⟨s.tool, s.tool_input, s.observation⟩)
      let agent_steps2 := agent_steps ++ steps.map (fun s => ⟨s.tool, s.log⟩)
      match parse_and_validate_output output_text asset with
      | Except.ok validated =>
        (Except.ok ⟨validated, agent_steps2, tool_calls2, true, none⟩, 1)
      | Except.error (PyError.validationError m) =>
        if attempt = max_retries - 1 then
          (Except.error (PyError.otherError (exhaustMsg max_retries m)), 1)
        else
          let r := research_loop driver asset max_retries remaining (attempt + 1)
            agent_steps2 tool_calls2
          (r.1, r.2 + 1)
      | Except.error e => (Except.error e, 1)

/-- `MarketResearchAgent.research(asset, max_retries)`: the value returned
or the exception raised (first component), and how many `invoke` calls
happened (second component).  `range(max_retries)` is modelled by the
count of remaining iterations, entered with `attempt = 0`. -/
def research (driver : Nat → DriverOutcome) (asset : String) (max_retries : Nat) :
    Except PyError ResearchResult :=
  (research_loop driver asset max_retries max_retries 0 [] []).1

/-- How many reasoning (`invoke`) calls a `research` call performs. -/
def research_invocations (driver : Nat → DriverOutcome) (asset : String) (max_retries : Nat) :
    Nat :=
  (research_loop driver asset max_retries max_retries 0 [] []).2

/-! ### The two tools of `app/agent/tools.py`

`random.uniform` draws are passed in as explicit rational arguments;
`round(x, 2)` is idealised as exact rational rounding. -/

/-- Python `round(x, 2)` (round-half-to-even idealised as `round`). -/
def round2 (q : ℚ) : ℚ := (round (q * 100) : ℤ) / 100

/-- The `mock_prices` table of `GetMarketPriceTool.execute`, with
`dict.get`'s fallback `\x7b"base": 1000, "volatility": "medium"\x7d`. -/
def mock_prices_get (a : String) : ℚ × String :=
  if a = "BTC" then (45000, "high")
  else if a = "ETH" then (2500, "medium")
  else if a = "USDT" then (1, "low")
  else if a = "SOL" then (100, "high")
  else (1000, "medium")

/-- The assets `mock_prices` knows. -/
def known_price_assets : List String := ["BTC", "ETH", "USDT", "SOL"]

/-- Result dictionary of `GetMarketPriceTool.execute`. -/
structure MarketPriceResult where
  asset : String
  price_usd : ℚ
  change_24h_percent : ℚ
  volume_24h_usd : ℚ
  volatility : String
deriving DecidableEq, Repr

/-- `GetMarketPriceTool.execute(asset)`; `draw_price` models
`random.uniform(-base*0.05, base*0.05)`, `draw_change` and `draw_volume`
the other two draws. -/
def get_market_price_execute (asset : String)
    (draw_price draw_change draw_volume : ℚ) : MarketPriceResult :=
  let base_data := mock_prices_get (pyUpper asset)
  let price := base_data.1 + draw_price
  { asset := pyUpper asset
    price_usd := round2 price
    change_24h_percent := round2 draw_change
    volume_24h_usd := round2 draw_volume
    volatility := base_data.2 }

/-- Result dictionary of `GetInternalSentimentTool.execute`. -/
structure SentimentResult where
  asset : String
  sentiment_score : ℚ
  risk_level : String
  social_sentiment : ℚ
  news_sentiment : ℚ
  market_outlook : String
  confidence : ℚ
deriving DecidableEq, Repr

/-- `GetInternalSentimentTool.execute(asset)`; the four rational arguments
model the `random.uniform` draws in source order. -/
def get_internal_sentiment_execute (asset : String)
    (draw_sent draw_social draw_news draw_conf : ℚ) : SentimentResult :=
  let rl_outlook : String × String :=
    if draw_sent < 2/5 then ("High", "bearish")
    else if draw_sent < 3/5 then ("Medium", "neutral")
    else ("Low", "bullish")
  { asset := pyUpper asset
    sentiment_score := round2 draw_sent
    risk_level := rl_outlook.1
    social_sentiment := round2 draw_social
    news_sentiment := round2 draw_news
    market_outlook := rl_outlook.2
    confidence := round2 draw_conf }

/-! ### Model of `json.dumps` on a `model_dump()` dictionary -/

/-- JSON string escaping as `json.dumps` performs it on the characters the
program round-trips (`"` and `\` get a backslash; other characters are
emitted as themselves). -/
def escapeChars : List Char → List Char
  | [] => []
  | c :: cs =>
    (if c = quoteC ∨ c = backslashC then [backslashC, c] else [c]) ++ escapeChars cs

/-- A JSON string literal for `s`. -/
def encodeString (s : String) : List Char := quoteC :: (escapeChars s.data ++ [quoteC])

/-- Decimal digits of `n`, most significant first (`"0"` for zero). -/
def natChars (n : Nat) : List Char :=
  if n = 0 then ['0'] else ((Nat.digits 10 n).map Nat.digitChar).reverse

/-- The digits of `a` left-padded with zeros to at least `e + 1` digits, so
a decimal point can sit `e` digits from the right. -/
def paddedDigits (a e : Nat) : List Char :=
  List.replicate (e + 1 - (natChars a).length) '0' ++ natChars a

/-- Decimal rendering of the magnitude `a / 10 ^ e`: integer digits and —
when `e > 0` — a point followed by exactly `e` fraction digits. -/
def printDecBody (a e : Nat) : List Char :=
  if e = 0 then natChars a
  else
    (paddedDigits a e).take ((paddedDigits a e).length - e) ++
      '.' :: (paddedDigits a e).drop ((paddedDigits a e).length - e)

/-- Decimal rendering of a `JNum`: optional sign, then its magnitude. -/
def printJNum (n : JNum) : List Char :=
  if n.mant < 0 then '-' :: printDecBody n.mant.natAbs n.exp10
  else printDecBody n.mant.natAbs n.exp10

/-- The elements of a JSON array of strings, separated by `", "`. -/
def printElemsAux : List String → List Char
  | [] => []
  | [s] => encodeString s
  | s :: s2 :: rest => encodeString s ++ ',' :: ' ' :: printElemsAux (s2 :: rest)

/-- A JSON array literal for a list of strings. -/
def printStrArr (ss : List String) : List Char := '[' :: (printElemsAux ss ++ [']'])

/-- `None` prints as `null`, a string as its literal. -/
def printAnalysis : Option String → List Char
  | none => ['n', 'u', 'l', 'l']
  | some s => encodeString s

/-- Everything of `json.dumps(validated.model_dump())` after the opening
brace: the five fields in pydantic field order with the default `", "` /
`": "` separators, then the closing brace. -/
def recordTail (m : MarketResearchOutput) : List Char :=
  encodeString "asset" ++ ':' :: ' ' :: (encodeString m.asset
    ++ ',' :: ' ' :: (encodeString "risk_level" ++ ':' :: ' ' :: (encodeString m.risk_level
    ++ ',' :: ' ' :: (encodeString "sentiment_score" ++ ':' :: ' ' ::
      (printJNum m.sentiment_score
    ++ ',' :: ' ' :: (encodeString "tools_used" ++ ':' :: ' ' :: (printStrArr m.tools_used
    ++ ',' :: ' ' :: (encodeString "analysis" ++ ':' :: ' ' :: (printAnalysis m.analysis
    ++ [rbraceC])))))))))

/-- `json.dumps(validated.model_dump())`. -/
def dumps_record (m : MarketResearchOutput) : String :=
  ⟨lbraceC :: recordTail m⟩

/-- The member list `json.loads` reads back from `dumps_record m`. -/
def recordFields (m : MarketResearchOutput) : List (String × JValue) :=
  [("asset", JValue.str m.asset),
   ("risk_level", JValue.str m.risk_level),
   ("sentiment_score", JValue.num m.sentiment_score),
   ("tools_used", JValue.arr (m.tools_used.map JValue.str)),
   ("analysis", match m.analysis with
     | none => JValue.null
     | some s => JValue.str s)]

/-! ### Reading back what `dumps_record` prints -/

theorem toNat_ne_imp_ne {c d : Char} (h : c.toNat ≠ d.toNat) : c ≠ d :=
  fun he => h (congrArg Char.toNat he)

theorem isDigitC_iff {c : Char} : isDigitC c = true ↔ 48 ≤ c.toNat ∧ c.toNat ≤ 57 := by
  simp [isDigitC]

theorem isWs_false_of_digit {c : Char} (h : isDigitC c = true) : isWs c = false := by
  rw [isDigitC_iff] at h
  simp only [isWs, Bool.or_eq_false_iff, decide_eq_false_iff_not]
  omega

theorem skipWs_cons_not {c : Char} {l : List Char} (h : isWs c = false) :
    skipWs (c :: l) = c :: l := by
  simp [skipWs, h]

theorem skipWs_space (l : List Char) : skipWs (' ' :: l) = skipWs l := by
  have h : isWs ' ' = true := by decide
  simp [skipWs, h]

theorem parseStringBody_escape (s rest : List Char) :
    parseStringBody (escapeChars s ++ quoteC :: rest) = some (s, rest) := by
  induction s with
  | nil => rw [escapeChars, List.nil_append, parseStringBody.eq_def]; simp
  | cons c cs ih =>
    by_cases hc : c = quoteC ∨ c = backslashC
    · have h1 : (backslashC = quoteC) = False := by simp [quoteC, backslashC, Char.ofNat]
      have h2 : unescapeChar c = some c := by
        rcases hc with h | h <;> subst h <;> simp [unescapeChar]
      rw [escapeChars, if_pos hc]
      rw [List.append_assoc, List.cons_append, List.cons_append, parseStringBody.eq_def]
      simp [h1, h2, ih]
    · push_neg at hc
      rw [escapeChars, if_neg (by simp [hc.1, hc.2]), List.cons_append, List.nil_append,
        parseStringBody.eq_def]
      simp [hc.1, hc.2, ih]

/-- Value of a digit string read most-significant-first, starting from
`acc`. -/
def valAcc (acc : Nat) (ds : List Char) : Nat :=
  ds.foldl (fun a c => a * 10 + digitVal c) acc

/-- The head of `l`, if any, is not a decimal digit. -/
def headNotDigit : List Char → Bool
  | [] => true
  | c :: _ => !(isDigitC c)

/-- The head of `l`, if any, neither is a digit nor a decimal point, so no
number parse continues into `l`. -/
def headNotNumCont : List Char → Bool
  | [] => true
  | c :: _ => !(isDigitC c) && !(c = '.')

theorem valAcc_nil (acc : Nat) : valAcc acc [] = acc := rfl

theorem valAcc_cons (acc : Nat) (c : Char) (ds : List Char) :
    valAcc acc (c :: ds) = valAcc (acc * 10 + digitVal c) ds := rfl

theorem valAcc_shift (acc : Nat) (ds : List Char) :
    valAcc acc ds = acc * 10 ^ ds.length + valAcc 0 ds := by
  induction ds generalizing acc with
  | nil => simp [valAcc_nil]
  | cons c ds ih =>
    rw [valAcc_cons, valAcc_cons, ih, ih (0 * 10 + digitVal c), List.length_cons]
    ring

theorem valAcc_append (acc : Nat) (xs ys : List Char) :
    valAcc acc (xs ++ ys) = valAcc (valAcc acc xs) ys := by
  simp [valAcc, List.foldl_append]

theorem valAcc_split (xs ys : List Char) :
    valAcc 0 (xs ++ ys) = valAcc 0 xs * 10 ^ ys.length + valAcc 0 ys := by
  rw [valAcc_append, valAcc_shift]

theorem valAcc_replicate_zero (k : Nat) : valAcc 0 (List.replicate k '0') = 0 := by
  induction k with
  | zero => rfl
  | succ k ih => rw [List.replicate_succ, valAcc_cons]; simpa using ih

theorem parseDigitsAux_spec (ds : List Char) (rest : List Char) (acc cnt : Nat)
    (hds : ∀ c ∈ ds, isDigitC c = true) (hrest : headNotDigit rest = true) :
    parseDigitsAux (ds ++ rest) acc cnt = (valAcc acc ds, cnt + ds.length, rest) := by
  induction ds generalizing acc cnt with
  | nil =>
    cases rest with
    | nil => rfl
    | cons c cs =>
      simp only [headNotDigit, Bool.not_eq_eq_eq_not, Bool.not_true] at hrest
      simp [parseDigitsAux, hrest, valAcc_nil]
  | cons d ds ih =>
    have hd : isDigitC d = true := hds d (by simp)
    rw [List.cons_append, parseDigitsAux, if_pos hd,
      ih _ _ (fun c hc => hds c (by simp [hc])), valAcc_cons, List.length_cons]
    have : cnt + 1 + ds.length = cnt + (ds.length + 1) := by omega
    rw [this]

theorem digitChar_isDigitC {d : Nat} (h : d < 10) : isDigitC (Nat.digitChar d) = true := by
  interval_cases d <;> decide

theorem digitVal_digitChar {d : Nat} (h : d < 10) : digitVal (Nat.digitChar d) = d := by
  interval_cases d <;> decide

theorem natChars_all_digits (n : Nat) : ∀ c ∈ natChars n, isDigitC c = true := by
  intro c hc
  rw [natChars] at hc
  by_cases hn : n = 0
  · simp [hn] at hc
    subst hc; decide
  · rw [if_neg hn, List.mem_reverse, List.mem_map] at hc
    obtain ⟨d, hd, rfl⟩ := hc
    exact digitChar_isDigitC (Nat.digits_lt_base (by norm_num) hd)

theorem natChars_ne_nil (n : Nat) : natChars n ≠ [] := by
  rw [natChars]
  by_cases hn : n = 0
  · simp [hn]
  · rw [if_neg hn]
    simp [Nat.digits_ne_nil_iff_ne_zero.mpr hn]

theorem valAcc_natChars (n : Nat) : valAcc 0 (natChars n) = n := by
  by_cases hn : n = 0
  · subst hn; decide
  · rw [natChars, if_neg hn]
    have aux : ∀ D : List Nat, (∀ d ∈ D, d < 10) →
        List.foldr (fun c a => a * 10 + digitVal c) 0 (D.map Nat.digitChar) =
          Nat.ofDigits 10 D := by
      intro D
      induction D with
      | nil => intro _; simp [Nat.ofDigits]
      | cons d D ih =>
        intro hD
        rw [List.map_cons, List.foldr_cons, ih (fun x hx => hD x (by simp [hx])),
          Nat.ofDigits_cons, digitVal_digitChar (hD d (by simp))]
        ring
    rw [valAcc, List.foldl_reverse,
      aux _ (fun d hd => Nat.digits_lt_base (by norm_num) hd), Nat.ofDigits_digits]

theorem headNotDigit_of_notNumCont {rest : List Char} (h : headNotNumCont rest = true) :
    headNotDigit rest = true := by
  cases rest with
  | nil => rfl
  | cons c cs =>
    simp only [headNotNumCont, Bool.and_eq_true] at h
    simp [headNotDigit, h.1]

theorem paddedDigits_all_digits (a e : Nat) :
    ∀ c ∈ paddedDigits a e, isDigitC c = true := by
  intro c hc
  rw [paddedDigits, List.mem_append] at hc
  rcases hc with hc | hc
  · rw [List.eq_of_mem_replicate hc]; decide
  · exact natChars_all_digits a c hc

theorem paddedDigits_length (a e : Nat) : e + 1 ≤ (paddedDigits a e).length := by
  rw [paddedDigits, List.length_append, List.length_replicate]
  omega

theorem valAcc_paddedDigits (a e : Nat) : valAcc 0 (paddedDigits a e) = a := by
  rw [paddedDigits, valAcc_append, valAcc_replicate_zero, valAcc_natChars]

theorem parseNumberCore_digits (neg : Bool) (a : Nat) (rest : List Char)
    (h : headNotNumCont rest = true) :
    parseNumberCore neg (natChars a ++ rest) =
      some (⟨if neg then -(a : Int) else (a : Int), 0⟩, rest) := by
  obtain ⟨d, ds, hds⟩ : ∃ d ds, natChars a = d :: ds := by
    cases hnc : natChars a with
    | nil => exact absurd hnc (natChars_ne_nil a)
    | cons d ds => exact ⟨d, ds, rfl⟩
  have hd : isDigitC d = true := natChars_all_digits a d (by rw [hds]; simp)
  have hpd : parseDigitsAux (d :: (ds ++ rest)) 0 0 = (a, (d :: ds).length, rest) := by
    have := parseDigitsAux_spec (d :: ds) rest 0 0
      (fun c hc => natChars_all_digits a c (hds ▸ hc)) (headNotDigit_of_notNumCont h)
    rw [List.cons_append] at this
    rw [this]
    have hv : valAcc 0 (d :: ds) = a := by rw [← hds, valAcc_natChars]
    rw [hv]
    simp
  rw [hds, List.cons_append, parseNumberCore, if_pos hd]
  simp only [hpd]
  cases rest with
  | nil => rfl
  | cons p ps =>
    have hp : (p = '.') = False := by
      simp only [headNotNumCont, Bool.and_eq_true, Bool.not_eq_eq_eq_not, Bool.not_true,
        decide_eq_false_iff_not] at h
      simp [h.2]
    simp [hp]

theorem parseNumberCore_printDecBody (neg : Bool) (a e : Nat) (rest : List Char)
    (h : headNotNumCont rest = true) :
    parseNumberCore neg (printDecBody a e ++ rest) =
      some (⟨if neg then -(a : Int) else (a : Int), e⟩, rest) := by
  by_cases he : e = 0
  · subst he
    rw [printDecBody, if_pos rfl, parseNumberCore_digits neg a rest h]
  · rw [printDecBody, if_neg he]
    have hLen := paddedDigits_length a e
    have hall := paddedDigits_all_digits a e
    obtain ⟨t, ts, htk⟩ : ∃ t ts,
        (paddedDigits a e).take ((paddedDigits a e).length - e) = t :: ts := by
      cases htk : (paddedDigits a e).take ((paddedDigits a e).length - e) with
      | nil =>
        have := congrArg List.length htk
        rw [List.length_take] at this
        simp at this
        omega
      | cons t ts => exact ⟨t, ts, rfl⟩
    obtain ⟨q, qs, hdk⟩ : ∃ q qs,
        (paddedDigits a e).drop ((paddedDigits a e).length - e) = q :: qs := by
      cases hdk : (paddedDigits a e).drop ((paddedDigits a e).length - e) with
      | nil =>
        have := congrArg List.length hdk
        rw [List.length_drop] at this
        simp at this
        omega
      | cons q qs => exact ⟨q, qs, rfl⟩
    have ht : isDigitC t = true :=
      hall t (List.take_subset _ _ (htk ▸ List.mem_cons_self t ts))
    have hq : isDigitC q = true :=
      hall q (List.drop_subset _ _ (hdk ▸ List.mem_cons_self q qs))
    have htake_len : (t :: ts).length = (paddedDigits a e).length - e := by
      rw [← htk, List.length_take]
      omega
    have hdrop_len : (q :: qs).length = e := by
      rw [← hdk, List.length_drop]
      omega
    have hsplit : valAcc 0 (t :: ts) * 10 ^ e + valAcc 0 (q :: qs) = a := by
      have htd := List.take_append_drop ((paddedDigits a e).length - e) (paddedDigits a e)
      rw [htk, hdk] at htd
      have := valAcc_split (t :: ts) (q :: qs)
      rw [htd, valAcc_paddedDigits, hdrop_len] at this
      omega
    have hp1 : parseDigitsAux (t :: (ts ++ '.' :: ((q :: qs) ++ rest))) 0 0 =
        (valAcc 0 (t :: ts), (t :: ts).length, '.' :: ((q :: qs) ++ rest)) := by
      have := parseDigitsAux_spec (t :: ts) ('.' :: ((q :: qs) ++ rest)) 0 0
        (fun c hc => hall c (List.take_subset _ _ (htk ▸ hc)))
        (by simp [headNotDigit]; decide)
      rw [List.cons_append] at this
      rw [this]
      simp
    have hp2 : parseDigitsAux (q :: (qs ++ rest)) 0 0 =
        (valAcc 0 (q :: qs), (q :: qs).length, rest) := by
      have := parseDigitsAux_spec (q :: qs) rest 0 0
        (fun c hc => hall c (List.drop_subset _ _ (hdk ▸ hc)))
        (headNotDigit_of_notNumCont h)
      rw [List.cons_append] at this
      rw [this]
      simp
    rw [htk, hdk]
    rw [List.append_assoc, List.cons_append, List.cons_append]
    rw [parseNumberCore, if_pos ht]
    simp only [hp1]
    have hdot : ('.' = '.') = True := by simp
    simp only [List.cons_append, hdot, if_true, hq, if_pos hq, hp2, hdrop_len]
    have hm : (valAcc 0 (t :: ts) : Int) * (10 : Int) ^ e + (valAcc 0 (q :: qs) : Int) =
        (a : Int) := by
      exact_mod_cast congrArg (fun t : Nat => (t : Int)) hsplit
    rw [hm]

theorem parseNumber_printJNum (n : JNum) (rest : List Char)
    (h : headNotNumCont rest = true) :
    parseNumber (printJNum n ++ rest) = some (n, rest) := by
  obtain ⟨m, e⟩ := n
  rw [printJNum]
  by_cases hm : m < 0
  · simp only [hm, if_true]
    rw [List.cons_append, parseNumber, if_pos rfl,
      parseNumberCore_printDecBody true m.natAbs e rest h]
    have hv : -(m.natAbs : Int) = m := by omega
    rw [if_pos rfl, hv]
  · simp only [hm, if_false]
    obtain ⟨d, ds, hds⟩ : ∃ d ds, printDecBody m.natAbs e = d :: ds := by
      cases hb : printDecBody m.natAbs e with
      | nil =>
        exfalso
        have := parseNumberCore_printDecBody false m.natAbs e rest h
        rw [hb, List.nil_append] at this
        cases rest with
        | nil => exact (by simp [parseNumberCore] at this)
        | cons c cs =>
          have hc : isDigitC c = false := by
            simp only [headNotNumCont, Bool.and_eq_true, Bool.not_eq_eq_eq_not,
              Bool.not_true] at h
            exact h.1
          rw [parseNumberCore, if_neg (by simp [hc])] at this
          exact Option.noConfusion this
      | cons d ds => exact ⟨d, ds, rfl⟩
    have hd : isDigitC d = true := by
      by_contra hdn
      have := parseNumberCore_printDecBody false m.natAbs e rest h
      rw [hds, List.cons_append, parseNumberCore,
        if_neg (by simpa using hdn)] at this
      exact Option.noConfusion this
    have hdm : (d = '-') = False := by
      rw [isDigitC_iff] at hd
      simp only [eq_iff_iff, iff_false]
      exact toNat_ne_imp_ne (by
        have : ('-').toNat = 45 := by decide
        omega)
    rw [hds, List.cons_append, parseNumber, if_neg (by simp [hdm]), ← List.cons_append,
      ← hds, parseNumberCore_printDecBody false m.natAbs e rest h]
    have hv : (m.natAbs : Int) = m := by omega
    rw [if_neg (by simp : ¬((false : Bool) = true)), hv]

theorem string_mk_data (s : String) : (⟨s.data⟩ : String) = s := by
  cases s
  rfl

theorem number_head_guards {c : Char} (h : c = '-' ∨ isDigitC c = true) :
    isWs c = false ∧ ¬(c = quoteC) ∧ ¬(c = lbraceC) ∧ ¬(c = '[') ∧
      ¬(c = 't') ∧ ¬(c = 'f') ∧ ¬(c = 'n') := by
  have htn : c.toNat = 45 ∨ (48 ≤ c.toNat ∧ c.toNat ≤ 57) := by
    rcases h with h | h
    · subst h; left; decide
    · right; exact isDigitC_iff.mp h
  have h34 : quoteC.toNat = 34 := by decide
  have h123 : lbraceC.toNat = 123 := by decide
  have h91 : ('[').toNat = 91 := by decide
  have h116 : ('t').toNat = 116 := by decide
  have h102 : ('f').toNat = 102 := by decide
  have h110 : ('n').toNat = 110 := by decide
  refine ⟨?_, ?_, ?_, ?_, ?_, ?_, ?_⟩
  · simp only [isWs, Bool.or_eq_false_iff, decide_eq_false_iff_not]
    omega
  · exact toNat_ne_imp_ne (by omega)
  · exact toNat_ne_imp_ne (by omega)
  · exact toNat_ne_imp_ne (by omega)
  · exact toNat_ne_imp_ne (by omega)
  · exact toNat_ne_imp_ne (by omega)
  · exact toNat_ne_imp_ne (by omega)

theorem parseVal_str (fuel : Nat) (s : String) (rest : List Char) :
    parseVal (fuel + 1) (encodeString s ++ rest) = some (JValue.str s, rest) := by
  rw [encodeString, List.cons_append, parseVal,
    skipWs_cons_not (by decide : isWs quoteC = false)]
  dsimp only
  rw [if_pos rfl, List.append_assoc, List.singleton_append, parseStringBody_escape]
  simp [string_mk_data]

theorem parseVal_ws (fuel : Nat) (l : List Char) (hf : 1 ≤ fuel) :
    parseVal fuel (' ' :: l) = parseVal fuel l := by
  obtain ⟨f, rfl⟩ : ∃ f, fuel = f + 1 := ⟨fuel - 1, by omega⟩
  rw [parseVal, parseVal, skipWs_space]

theorem printDecBody_cons (a e : Nat) :
    ∃ d ds, printDecBody a e = d :: ds ∧ isDigitC d = true := by
  obtain ⟨d, ds, hds⟩ : ∃ d ds, printDecBody a e = d :: ds := by
    cases hb : printDecBody a e with
    | nil =>
      exfalso
      have := parseNumberCore_printDecBody false a e [] rfl
      rw [hb, List.nil_append, parseNumberCore] at this
      exact Option.noConfusion this
    | cons d ds => exact ⟨d, ds, rfl⟩
  refine ⟨d, ds, hds, ?_⟩
  by_contra hdn
  have := parseNumberCore_printDecBody false a e [] rfl
  rw [hds, List.cons_append, parseNumberCore, if_neg (by simpa using hdn)] at this
  exact Option.noConfusion this

theorem printJNum_cons (n : JNum) :
    ∃ c cs, printJNum n = c :: cs ∧ (c = '-' ∨ isDigitC c = true) := by
  rw [printJNum]
  by_cases hm : n.mant < 0
  · exact ⟨'-', _, by rw [if_pos hm], Or.inl rfl⟩
  · obtain ⟨d, ds, hds, hd⟩ := printDecBody_cons n.mant.natAbs n.exp10
    exact ⟨d, ds, by rw [if_neg hm, hds], Or.inr hd⟩

theorem parseVal_num (fuel : Nat) (n : JNum) (rest : List Char)
    (h : headNotNumCont rest = true) :
    parseVal (fuel + 1) (printJNum n ++ rest) = some (JValue.num n, rest) := by
  obtain ⟨c, cs, hcs, hc⟩ := printJNum_cons n
  obtain ⟨g0, g1, g2, g3, g4, g5, g6⟩ := number_head_guards hc
  rw [hcs, List.cons_append, parseVal, skipWs_cons_not g0]
  dsimp only
  rw [if_neg g1, if_neg g2, if_neg g3, if_neg g4, if_neg g5, if_neg g6,
    ← List.cons_append, ← hcs, parseNumber_printJNum n rest h]
  rfl

theorem parseVal_null (fuel : Nat) (rest : List Char) :
    parseVal (fuel + 1) ('n' :: 'u' :: 'l' :: 'l' :: rest) = some (JValue.null, rest) := by
  rw [parseVal, skipWs_cons_not (by decide : isWs 'n' = false)]
  dsimp only
  rw [if_neg (by decide : ¬('n' = quoteC)), if_neg (by decide : ¬('n' = lbraceC)),
    if_neg (by decide : ¬('n' = '[')), if_neg (by decide : ¬('n' = 't')),
    if_neg (by decide : ¬('n' = 'f')), if_pos rfl]
  simp

theorem parseElems_ws (fuel : Nat) (l : List Char) (hf : 2 ≤ fuel) :
    parseElems fuel (' ' :: l) = parseElems fuel l := by
  obtain ⟨f, rfl⟩ : ∃ f, fuel = f + 1 := ⟨fuel - 1, by omega⟩
  rw [parseElems, parseElems, parseVal_ws f l (by omega)]

theorem parseMembers_ws (fuel : Nat) (l : List Char) (hf : 1 ≤ fuel) :
    parseMembers fuel (' ' :: l) = parseMembers fuel l := by
  obtain ⟨f, rfl⟩ : ∃ f, fuel = f + 1 := ⟨fuel - 1, by omega⟩
  rw [parseMembers, parseMembers, skipWs_space]

theorem printElemsAux_shape (s : String) (ss : List String) :
    ∃ l, printElemsAux (s :: ss) = quoteC :: l := by
  cases ss with
  | nil => exact ⟨_, rfl⟩
  | cons s2 ss => exact ⟨_, rfl⟩

theorem parseElems_strings (ss : List String) (s : String) (rest : List Char) (fuel : Nat)
    (hf : ss.length + 2 ≤ fuel) :
    parseElems fuel (printElemsAux (s :: ss) ++ ']' :: rest) =
      some ((s :: ss).map JValue.str, rest) := by
  induction ss generalizing s fuel with
  | nil =>
    obtain ⟨f, rfl⟩ : ∃ f, fuel = f + 1 := ⟨fuel - 1, by omega⟩
    obtain ⟨f2, rfl⟩ : ∃ f2, f = f2 + 1 := ⟨f - 1, by omega⟩
    rw [printElemsAux, parseElems, parseVal_str (f2) s (']' :: rest)]
    dsimp only
    rw [skipWs_cons_not (by decide : isWs ']' = false)]
    dsimp only
    rw [if_neg (by decide : ¬(']' = ',')), if_pos rfl]
    rfl
  | cons s2 ss ih =>
    obtain ⟨f, rfl⟩ : ∃ f, fuel = f + 1 := ⟨fuel - 1, by omega⟩
    obtain ⟨f2, rfl⟩ : ∃ f2, f = f2 + 1 := ⟨f - 1, by omega⟩
    rw [printElemsAux]
    rw [List.append_assoc, List.cons_append, List.cons_append, parseElems,
      parseVal_str (f2) s (',' :: ' ' :: (printElemsAux (s2 :: ss) ++ ']' :: rest))]
    dsimp only
    rw [skipWs_cons_not (by decide : isWs ',' = false)]
    dsimp only
    rw [if_pos rfl,
      parseElems_ws (f2 + 1) _ (by simp only [List.length_cons] at hf; omega),
      ih s2 (f2 + 1) (by simp only [List.length_cons] at hf; omega)]
    rfl

theorem parseVal_strArr (ss : List String) (rest : List Char) (fuel : Nat)
    (hf : ss.length + 3 ≤ fuel) :
    parseVal fuel (printStrArr ss ++ rest) = some (JValue.arr (ss.map JValue.str), rest) := by
  obtain ⟨f, rfl⟩ : ∃ f, fuel = f + 1 := ⟨fuel - 1, by omega⟩
  rw [printStrArr, List.cons_append, parseVal,
    skipWs_cons_not (by decide : isWs '[' = false)]
  dsimp only
  rw [if_neg (by decide : ¬('[' = quoteC)), if_neg (by decide : ¬('[' = lbraceC)),
    if_pos rfl]
  cases ss with
  | nil =>
    rw [printElemsAux, List.nil_append, List.cons_append,
      skipWs_cons_not (by decide : isWs ']' = false)]
    dsimp only
    rw [if_pos rfl]
    rfl
  | cons s ss =>
    obtain ⟨l, hl⟩ := printElemsAux_shape s ss
    rw [List.append_assoc, List.cons_append, hl, List.cons_append,
      skipWs_cons_not (by decide : isWs quoteC = false)]
    dsimp only
    rw [if_neg (by decide : ¬(quoteC = ']')), ← List.cons_append, ← hl,
      List.nil_append,
      parseElems_strings ss s rest f (by simp only [List.length_cons] at hf; omega)]
    rfl

theorem parseMembers_step (f : Nat) (k : String) (rest1 : List Char) (v : JValue)
    (e : Char) (es : List Char) (he : isWs e = false)
    (hv : parseVal f rest1 = some (v, e :: es)) :
    parseMembers (f + 1) (encodeString k ++ ':' :: rest1) =
      (if e = ',' then (parseMembers f es).map (fun p => ((k, v) :: p.1, p.2))
       else if e = rbraceC then some ([(k, v)], es)
       else none) := by
  rw [encodeString, List.cons_append, parseMembers,
    skipWs_cons_not (by decide : isWs quoteC = false)]
  dsimp only
  rw [if_pos rfl, List.append_assoc, List.singleton_append, parseStringBody_escape]
  dsimp only
  rw [skipWs_cons_not (by decide : isWs ':' = false)]
  dsimp only
  rw [if_pos rfl, hv]
  dsimp only
  rw [skipWs_cons_not he]

theorem parseMembers_recordTail (r : MarketResearchOutput) (f : Nat)
    (hf : r.tools_used.length + 8 ≤ f) :
    parseMembers f (recordTail r) = some (recordFields r, []) := by
  obtain ⟨a1, rfl⟩ : ∃ a1, f = a1 + 1 := ⟨f - 1, by omega⟩
  obtain ⟨a2, rfl⟩ : ∃ a2, a1 = a2 + 1 := ⟨a1 - 1, by omega⟩
  obtain ⟨a3, rfl⟩ : ∃ a3, a2 = a3 + 1 := ⟨a2 - 1, by omega⟩
  obtain ⟨a4, rfl⟩ : ∃ a4, a3 = a4 + 1 := ⟨a3 - 1, by omega⟩
  obtain ⟨a5, rfl⟩ : ∃ a5, a4 = a5 + 1 := ⟨a4 - 1, by omega⟩
  obtain ⟨a6, rfl⟩ : ∃ a6, a5 = a6 + 1 := ⟨a5 - 1, by omega⟩
  rw [recordTail]
  rw [parseMembers_step _ "asset" _ (JValue.str r.asset) ',' _ (by decide)
    (by rw [parseVal_ws _ _ (by omega), parseVal_str])]
  rw [if_pos rfl, parseMembers_ws _ _ (by omega)]
  rw [parseMembers_step _ "risk_level" _ (JValue.str r.risk_level) ',' _ (by decide)
    (by rw [parseVal_ws _ _ (by omega), parseVal_str])]
  rw [if_pos rfl, parseMembers_ws _ _ (by omega)]
  rw [parseMembers_step _ "sentiment_score" _ (JValue.num r.sentiment_score) ',' _
    (by decide)
    (by rw [parseVal_ws _ _ (by omega), parseVal_num _ _ _ (by rfl)])]
  rw [if_pos rfl, parseMembers_ws _ _ (by omega)]
  rw [parseMembers_step _ "tools_used" _ (JValue.arr (r.tools_used.map JValue.str)) ',' _
    (by decide)
    (by
      rw [parseVal_ws _ _ (by omega),
        parseVal_strArr r.tools_used _ _ (by omega)])]
  rw [if_pos rfl, parseMembers_ws _ _ (by omega)]
  cases hA : r.analysis with
  | none =>
    rw [parseMembers_step _ "analysis" _ JValue.null rbraceC [] (by decide)
      (by
        rw [parseVal_ws _ _ (by omega)]
        have hshape : printAnalysis none ++ [rbraceC] =
            'n' :: 'u' :: 'l' :: 'l' :: [rbraceC] := rfl
        rw [hshape, parseVal_null])]
    rw [if_neg (by decide : ¬(rbraceC = ',')), if_pos rfl]
    simp [recordFields, hA]
  | some s =>
    rw [parseMembers_step _ "analysis" _ (JValue.str s) rbraceC [] (by decide)
      (by
        rw [parseVal_ws _ _ (by omega)]
        have hshape : printAnalysis (some s) ++ [rbraceC] =
            encodeString s ++ [rbraceC] := rfl
        rw [hshape, parseVal_str])]
    rw [if_neg (by decide : ¬(rbraceC = ',')), if_pos rfl]
    simp [recordFields, hA]

theorem encodeString_length_ge (s : String) : 2 ≤ (encodeString s).length := by
  rw [encodeString]
  simp

theorem printElemsAux_length_ge (ss : List String) :
    ss.length ≤ (printElemsAux ss).length := by
  induction ss with
  | nil => simp [printElemsAux]
  | cons s ss ih =>
    cases ss with
    | nil =>
      have := encodeString_length_ge s
      simp only [printElemsAux, List.length_cons, List.length_nil]
      omega
    | cons s2 ss2 =>
      have := encodeString_length_ge s
      rw [printElemsAux]
      simp only [List.length_append, List.length_cons] at ih ⊢
      omega

theorem recordTail_length_ge (r : MarketResearchOutput) :
    r.tools_used.length + 9 ≤ (recordTail r).length := by
  have h1 := printElemsAux_length_ge r.tools_used
  rw [recordTail, printStrArr]
  simp only [List.length_append, List.length_cons]
  omega

theorem json_loads_dumps (r : MarketResearchOutput) :
    json_loads (dumps_record r) = Except.ok (JValue.obj (recordFields r)) := by
  rw [json_loads]
  have hdata : (dumps_record r).data = lbraceC :: recordTail r := rfl
  rw [hdata]
  have hb := recordTail_length_ge r
  have hlen : (lbraceC :: recordTail r).length + 2 = ((recordTail r).length + 2) + 1 := by
    simp
  rw [hlen, parseVal, skipWs_cons_not (by decide : isWs lbraceC = false)]
  dsimp only
  rw [if_neg (by decide : ¬(lbraceC = quoteC)), if_pos rfl]
  have hX : recordTail r =
      quoteC :: ((escapeChars "asset".data ++ [quoteC]) ++ ':' :: ' ' :: (encodeString r.asset
      ++ ',' :: ' ' :: (encodeString "risk_level" ++ ':' :: ' ' :: (encodeString r.risk_level
      ++ ',' :: ' ' :: (encodeString "sentiment_score" ++ ':' :: ' ' ::
        (printJNum r.sentiment_score
      ++ ',' :: ' ' :: (encodeString "tools_used" ++ ':' :: ' ' :: (printStrArr r.tools_used
      ++ ',' :: ' ' :: (encodeString "analysis" ++ ':' :: ' ' :: (printAnalysis r.analysis
      ++ [rbraceC])))))))))) := rfl
  rw [hX, skipWs_cons_not (by decide : isWs quoteC = false)]
  dsimp only
  rw [if_neg (by decide : ¬(quoteC = rbraceC)), ← hX,
    parseMembers_recordTail r ((recordTail r).length + 2) (by omega)]
  simp [skipWs]

/-! ### Re-validating a validated record -/

theorem dictGet_record_asset (r : MarketResearchOutput) :
    dictGet (recordFields r) "asset" = some (JValue.str r.asset) := by
  cases hA : r.analysis <;> simp [dictGet, recordFields, hA]

theorem dictGet_record_risk (r : MarketResearchOutput) :
    dictGet (recordFields r) "risk_level" = some (JValue.str r.risk_level) := by
  cases hA : r.analysis <;> simp [dictGet, recordFields, hA]

theorem dictGet_record_score (r : MarketResearchOutput) :
    dictGet (recordFields r) "sentiment_score" = some (JValue.num r.sentiment_score) := by
  cases hA : r.analysis <;> simp [dictGet, recordFields, hA]

theorem dictGet_record_tools (r : MarketResearchOutput) :
    dictGet (recordFields r) "tools_used" =
      some (JValue.arr (r.tools_used.map JValue.str)) := by
  cases hA : r.analysis <;> simp [dictGet, recordFields, hA]

theorem dictGet_record_analysis (r : MarketResearchOutput) :
    dictGet (recordFields r) "analysis" =
      some (match r.analysis with
        | none => JValue.null
        | some s => JValue.str s) := by
  cases hA : r.analysis <;> simp [dictGet, recordFields, hA]

theorem asStrList_map_str (ss : List String) :
    asStrList (ss.map JValue.str) = some ss := by
  induction ss with
  | nil => rfl
  | cons s ss ih => simp [asStrList, asPyStr, ih]

theorem constructOutput_recordFields (r : MarketResearchOutput)
    (hs : r.sentiment_score.inUnit = true) :
    constructOutput (recordFields r) = Except.ok r := by
  obtain ⟨a, rl, sc, tu, an⟩ := r
  cases an with
  | none =>
    rw [constructOutput, dictGet_record_asset, dictGet_record_risk, dictGet_record_score,
      dictGet_record_tools, dictGet_record_analysis]
    simp only at hs
    simp [asPyStr, asStrList_map_str, hs]
  | some s =>
    rw [constructOutput, dictGet_record_asset, dictGet_record_risk, dictGet_record_score,
      dictGet_record_tools, dictGet_record_analysis]
    simp only at hs
    simp [asPyStr, asStrList_map_str, hs]

theorem validate_risk_level_ok {r : MarketResearchOutput}
    (h : r.risk_level = "Low" ∨ r.risk_level = "Medium" ∨ r.risk_level = "High") :
    validate_risk_level r = Except.ok r := by
  rw [validate_risk_level, if_pos h]

theorem constructOutput_ok_inUnit {fields : List (String × JValue)}
    {m : MarketResearchOutput} (h : constructOutput fields = Except.ok m) :
    m.sentiment_score.inUnit = true := by
  rw [constructOutput] at h
  cases h1 : (dictGet fields "asset").bind asPyStr with
  | none => rw [h1] at h; exact Except.noConfusion h
  | some asset =>
    rw [h1] at h
    cases h2 : (dictGet fields "risk_level").bind asPyStr with
    | none => rw [h2] at h; exact Except.noConfusion h
    | some risk =>
      rw [h2] at h
      cases h3 : dictGet fields "sentiment_score" with
      | none => rw [h3] at h; exact Except.noConfusion h
      | some v =>
        rw [h3] at h
        cases v with
        | num n =>
          dsimp only at h
          by_cases hn : n.inUnit = true
          · rw [if_pos hn] at h
            cases h4 : dictGet fields "tools_used" with
            | none => rw [h4] at h; exact Except.noConfusion h
            | some w =>
              rw [h4] at h
              cases w with
              | arr xs =>
                dsimp only at h
                cases h5 : asStrList xs with
                | none => rw [h5] at h; exact Except.noConfusion h
                | some tools =>
                  rw [h5] at h
                  dsimp only at h
                  cases h6 : dictGet fields "analysis" with
                  | none =>
                    rw [h6] at h
                    cases h
                    exact hn
                  | some u =>
                    rw [h6] at h
                    cases u with
                    | null => cases h; exact hn
                    | str s => cases h; exact hn
                    | bool b => exact Except.noConfusion h
                    | num n2 => exact Except.noConfusion h
                    | arr ys => exact Except.noConfusion h
                    | obj fs => exact Except.noConfusion h
              | null => exact Except.noConfusion h
              | bool b => exact Except.noConfusion h
              | num n2 => exact Except.noConfusion h
              | str s => exact Except.noConfusion h
              | obj fs => exact Except.noConfusion h
          · rw [if_neg hn] at h; exact Except.noConfusion h
        | null => exact Except.noConfusion h
        | bool b => exact Except.noConfusion h
        | str s => exact Except.noConfusion h
        | arr xs => exact Except.noConfusion h
        | obj fs => exact Except.noConfusion h

theorem parse_ok_invariants {text asset : String} {r : MarketResearchOutput}
    (h : parse_and_validate_output text asset = Except.ok r) :
    (r.risk_level = "Low" ∨ r.risk_level = "Medium" ∨ r.risk_level = "High") ∧
      r.sentiment_score.inUnit = true ∧
      (pyUpper r.asset = pyUpper asset ∨ r.asset = pyUpper asset) := by
  rw [parse_and_validate_output] at h
  cases he : extract_json text with
  | error e => rw [he] at h; exact Except.noConfusion h
  | ok v =>
    rw [he] at h
    cases v with
    | obj fields =>
      dsimp only at h
      cases hc : constructOutput fields with
      | error e => rw [hc] at h; exact Except.noConfusion h
      | ok m =>
        rw [hc] at h
        dsimp only at h
        by_cases hr : m.risk_level = "Low" ∨ m.risk_level = "Medium" ∨ m.risk_level = "High"
        · rw [validate_risk_level_ok hr] at h
          dsimp only at h
          have hm := constructOutput_ok_inUnit hc
          by_cases hcond : pyUpper m.asset ≠ pyUpper asset
          · rw [if_pos hcond] at h
            cases h
            exact ⟨hr, hm, Or.inr rfl⟩
          · rw [if_neg hcond] at h
            cases h
            push_neg at hcond
            exact ⟨hr, hm, Or.inl hcond⟩
        · rw [validate_risk_level, if_neg hr] at h
          exact Except.noConfusion h
    | null => exact Except.noConfusion h
    | bool b => exact Except.noConfusion h
    | num n => exact Except.noConfusion h
    | str s => exact Except.noConfusion h
    | arr xs => exact Except.noConfusion h

theorem revalidate_dumps (r : MarketResearchOutput) (asset : String)
    (hr : r.risk_level = "Low" ∨ r.risk_level = "Medium" ∨ r.risk_level = "High")
    (hs : r.sentiment_score.inUnit = true)
    (ha : pyUpper r.asset = pyUpper asset ∨ r.asset = pyUpper asset) :
    parse_and_validate_output (dumps_record r) asset = Except.ok r := by
  rw [parse_and_validate_output]
  have he : extract_json (dumps_record r) = Except.ok (JValue.obj (recordFields r)) := by
    rw [extract_json, json_loads_dumps]
  rw [he]
  dsimp only
  rw [constructOutput_recordFields r hs]
  dsimp only
  rw [validate_risk_level_ok hr]
  dsimp only
  rcases ha with ha | ha
  · rw [if_neg (by simp [ha])]
  · by_cases hcond : pyUpper r.asset ≠ pyUpper asset
    · rw [if_pos hcond]
      have : ({ r with asset := pyUpper asset } : MarketResearchOutput) = r := by
        obtain ⟨a, rl, sc, tu, an⟩ := r
        simp only at ha
        simp [ha]
      rw [this]
    · rw [if_neg hcond]

theorem JNum.inUnit_iff (n : JNum) : n.inUnit = true ↔ 0 ≤ n.val ∧ n.val ≤ 1 := by
  have hp : (0 : ℚ) < (10 : ℚ) ^ n.exp10 := by positivity
  rw [JNum.inUnit, JNum.val]
  simp only [Bool.and_eq_true, decide_eq_true_eq]
  constructor
  · rintro ⟨h1, h2⟩
    constructor
    · positivity
    · rw [div_le_one hp]
      exact_mod_cast h2
  · rintro ⟨h1, h2⟩
    constructor
    · by_contra hneg
      push_neg at hneg
      have : (n.mant : ℚ) < 0 := by exact_mod_cast hneg
      have : (n.mant : ℚ) / (10 : ℚ) ^ n.exp10 < 0 := div_neg_of_neg_of_pos this hp
      linarith
    · rw [div_le_one hp] at h2
      exact_mod_cast h2

theorem constructOutput_ok_spec {fields : List (String × JValue)}
    {m : MarketResearchOutput} (h : constructOutput fields = Except.ok m) :
    dictGet fields "sentiment_score" = some (JValue.num m.sentiment_score) ∧
      m.sentiment_score.inUnit = true ∧
      (dictGet fields "risk_level").bind asPyStr = some m.risk_level := by
  rw [constructOutput] at h
  cases h1 : (dictGet fields "asset").bind asPyStr with
  | none => rw [h1] at h; exact Except.noConfusion h
  | some asset =>
    rw [h1] at h
    cases h2 : (dictGet fields "risk_level").bind asPyStr with
    | none => rw [h2] at h; exact Except.noConfusion h
    | some risk =>
      rw [h2] at h
      cases h3 : dictGet fields "sentiment_score" with
      | none => rw [h3] at h; exact Except.noConfusion h
      | some v =>
        rw [h3] at h
        cases v with
        | num n =>
          dsimp only at h
          by_cases hn : n.inUnit = true
          · rw [if_pos hn] at h
            cases h4 : dictGet fields "tools_used" with
            | none => rw [h4] at h; exact Except.noConfusion h
            | some w =>
              rw [h4] at h
              cases w with
              | arr xs =>
                dsimp only at h
                cases h5 : asStrList xs with
                | none => rw [h5] at h; exact Except.noConfusion h
                | some tools =>
                  rw [h5] at h
                  dsimp only at h
                  cases h6 : dictGet fields "analysis" with
                  | none =>
                    rw [h6] at h
                    cases h
                    exact ⟨by simpa using h3, by simpa using hn, by simpa using h2⟩
                  | some u =>
                    rw [h6] at h
                    cases u with
                    | null => cases h; exact ⟨by simpa using h3, by simpa using hn, by simpa using h2⟩
                    | str s => cases h; exact ⟨by simpa using h3, by simpa using hn, by simpa using h2⟩
                    | bool b => exact Except.noConfusion h
                    | num n2 => exact Except.noConfusion h
                    | arr ys => exact Except.noConfusion h
                    | obj fs => exact Except.noConfusion h
              | null => exact Except.noConfusion h
              | bool b => exact Except.noConfusion h
              | num n2 => exact Except.noConfusion h
              | str s => exact Except.noConfusion h
              | obj fs => exact Except.noConfusion h
          · rw [if_neg hn] at h; exact Except.noConfusion h
        | null => exact Except.noConfusion h
        | bool b => exact Except.noConfusion h
        | str s => exact Except.noConfusion h
        | arr xs => exact Except.noConfusion h
        | obj fs => exact Except.noConfusion h

/-! ### The claims -/

/-- C1: the claim says the record returned by `_parse_and_validate_output`
always carries the uppercased requested asset, in particular requesting
`BTC` with the model echoing `btc` yields `BTC`.  The code disagrees: the
overwrite on line 178 is guarded by a case-insensitive comparison, so the
echo `btc` is kept verbatim — this evaluation shows the returned asset is
`btc`, not `pyUpper "BTC" = "BTC"` (contradicting the repository's own
`test_research_asset_correction`). -/
theorem c1_model_echo_kept_on_case_insensitive_match :
    parse_and_validate_output
        "\x7b\"asset\": \"btc\", \"risk_level\": \"Low\", \"sentiment_score\": 0.8, \"tools_used\": [\"get_market_price\"]\x7d"
        "BTC" =
      Except.ok ⟨"btc", "Low", ⟨8, 1⟩, ["get_market_price"], none⟩ ∧
    ("btc" : String) ≠ pyUpper "BTC" := by
  exact ⟨by rfl, by decide⟩

/-- Driver used against C2: attempt 0 produces one tool step and an output
missing `risk_level` (a pydantic `ValidationError`), attempt 1 produces
another tool step and a valid output. -/
def driver_c2 : Nat → DriverOutcome := fun k =>
  if k = 0 then
    DriverOutcome.ret "\x7b\"asset\": \"BTC\"\x7d"
      [⟨"get_market_price", "BTC", "t0", "o0"⟩]
  else
    DriverOutcome.ret
      "\x7b\"asset\": \"BTC\", \"risk_level\": \"Low\", \"sentiment_score\": 1, \"tools_used\": []\x7d"
      [⟨"get_internal_sentiment", "BTC", "t1", "o1"⟩]

/-- C2 counterexample: the claim says the returned `ResearchResult` holds
only the winning attempt's trace entries.  With a first attempt that fails
schema validation after one tool call and a second that succeeds after
another, the returned result holds both attempts' entries — its
`tool_calls` and `agent_steps` are not the winning attempt's alone. -/
theorem c2_failed_attempt_trace_retained :
    research driver_c2 "BTC" 2 =
      Except.ok ⟨⟨"BTC", "Low", ⟨1, 0⟩, [], none⟩,
        [⟨"get_market_price", "t0"⟩, ⟨"get_internal_sentiment", "t1"⟩],
        [⟨"get_market_price", "BTC", "o0"⟩, ⟨"get_internal_sentiment", "BTC", "o1"⟩],
        true, none⟩ ∧
    ([⟨"get_market_price", "BTC", "o0"⟩, ⟨"get_internal_sentiment", "BTC", "o1"⟩] :
        List ToolCall) ≠ [⟨"get_internal_sentiment", "BTC", "o1"⟩] ∧
    ([⟨"get_market_price", "t0"⟩, ⟨"get_internal_sentiment", "t1"⟩] :
        List AgentStep) ≠ [⟨"get_internal_sentiment", "t1"⟩] := by
  exact ⟨by rfl, by decide, by decide⟩

/-- C2 as amended: `agent_steps` and `tool_calls` are allocated once before
the retry loop, so the returned result accumulates the trace entries of
every attempt in order — a failed (ValidationError-retried) first attempt's
entries are retained ahead of the winning attempt's. -/
theorem c2_amended_traces_accumulate (driver : Nat → DriverOutcome) (asset : String)
    (max_retries : Nat) (text0 text1 : String) (steps0 steps1 : List IntermediateStep)
    (r : MarketResearchOutput) (msg : String)
    (h0 : driver 0 = DriverOutcome.ret text0 steps0)
    (h1 : driver 1 = DriverOutcome.ret text1 steps1)
    (hfail : parse_and_validate_output text0 asset =
      Except.error (PyError.validationError msg))
    (hok : parse_and_validate_output text1 asset = Except.ok r)
    (hmr : 2 ≤ max_retries) :
    research driver asset max_retries =
      Except.ok ⟨r, (steps0 ++ steps1).map (fun s => ⟨s.tool, s.log⟩),
        (steps0 ++ steps1).map (fun s => ⟨s.tool, s.tool_input, s.observation⟩),
        true, none⟩ := by
  obtain ⟨k, rfl⟩ : ∃ k, max_retries = k + 2 := ⟨max_retries - 2, by omega⟩
  rw [research, research_loop, h0]
  dsimp only
  rw [hfail]
  dsimp only
  rw [if_neg (by omega : ¬(0 = k + 2 - 1))]
  dsimp only
  rw [research_loop, h1]
  dsimp only
  rw [hok]
  simp [List.map_append]

/-- C2 amended-claim witness: a concrete two-attempt driver realises the
hypotheses of `c2_amended_traces_accumulate`. -/
theorem c2_amended_traces_accumulate_witness :
    research driver_c2 "BTC" 2 =
      Except.ok ⟨⟨"BTC", "Low", ⟨1, 0⟩, [],
        none⟩,
        (([⟨"get_market_price", "BTC", "t0", "o0"⟩,
            ⟨"get_internal_sentiment", "BTC", "t1", "o1"⟩] : List IntermediateStep).map
          (fun s => ⟨s.tool, s.log⟩)),
        (([⟨"get_market_price", "BTC", "t0", "o0"⟩,
            ⟨"get_internal_sentiment", "BTC", "t1", "o1"⟩] : List IntermediateStep).map
          (fun s => ⟨s.tool, s.tool_input, s.observation⟩)),
        true, none⟩ := by
  exact c2_amended_traces_accumulate driver_c2 "BTC" 2 _ _
    [⟨"get_market_price", "BTC", "t0", "o0"⟩] [⟨"get_internal_sentiment", "BTC", "t1", "o1"⟩]
    ⟨"BTC", "Low", ⟨1, 0⟩, [], none⟩ "ValidationError: risk_level"
    (by rfl) (by rfl) (by rfl) (by rfl) (by omega)

/-- Driver used against C3: attempt 0 emits unparseable text, attempt 1
would emit a valid output. -/
def driver_c3 : Nat → DriverOutcome := fun k =>
  if k = 0 then DriverOutcome.ret "invalid json" []
  else
    DriverOutcome.ret
      "\x7b\"asset\": \"BTC\", \"risk_level\": \"Low\", \"sentiment_score\": 1, \"tools_used\": []\x7d"
      []

/-- C3: the claim says a parse failure on attempt `k < max_retries` is
caught and drives attempt `k + 1`.  The code disagrees: the parse failure
raises `ValueError`, which the `except ValidationError` arm does not catch,
so with text the parser rejects on attempt 1 of `max_retries = 2` the
`except Exception` arm re-raises immediately — `research` fails with the
`ValueError` after exactly one reasoning invocation instead of retrying
(contradicting the repository's own `test_research_validation_error_retry`). -/
theorem c3_parse_error_escapes_retry :
    research driver_c3 "BTC" 2 =
      Except.error (PyError.valueError "Could not find valid JSON in agent output") ∧
    research_invocations driver_c3 "BTC" 2 = 1 := by
  exact ⟨by rfl, by rfl⟩

/-- Driver used against C4: every attempt emits unparseable text. -/
def driver_c4 : Nat → DriverOutcome := fun _ => DriverOutcome.ret "invalid json" []

/-- C4: the claim says exhausting `max_retries` on validation failures
raises a terminal failure naming the attempt count.  The code disagrees
for parse failures: with a driver that always emits unparseable text and
`max_retries = 1`, `research` raises the bare
`ValueError("Could not find valid JSON in agent output")` — the message of
line 173, which names no attempt count — rather than the
`Failed to generate valid output after 1 attempts` message of line 143
(contradicting the repository's own `test_research_max_retries_exceeded`). -/
theorem c4_terminal_failure_has_no_attempt_count :
    research driver_c4 "BTC" 1 =
      Except.error (PyError.valueError "Could not find valid JSON in agent output") ∧
    research_invocations driver_c4 "BTC" 1 = 1 ∧
    (PyError.valueError "Could not find valid JSON in agent output" ≠
      PyError.otherError (exhaustMsg 1 "Could not find valid JSON in agent output")) := by
  exact ⟨by rfl, by rfl, by decide⟩

/-- C5: for every `final_text`, the output-parsing routine first attempts a
strict parse of the whole text; on failure it makes exactly one
substring-extraction attempt, strict-parsing the slice from the first
`\x7b` to the last `\x7d`; with either brace missing it raises the
`Could not find valid JSON in agent output` `ValueError`; and prose-wrapped
JSON such as `here it is \x7b…\x7d thanks` is accepted. -/
theorem c5_strict_parse_then_one_substring_extraction (text : String) :
    (∀ v, json_loads text = Except.ok v → extract_json text = Except.ok v) ∧
    (∀ e, json_loads text = Except.error e →
      (∀ i j, strFind text.data lbraceC = some i → strRfind text.data rbraceC = some j →
        extract_json text = json_loads ⟨(text.data.drop i).take (j + 1 - i)⟩) ∧
      (strFind text.data lbraceC = none ∨ strRfind text.data rbraceC = none →
        extract_json text =
          Except.error (PyError.valueError "Could not find valid JSON in agent output"))) ∧
    parse_and_validate_output
        "here it is \x7b\"asset\": \"BTC\", \"risk_level\": \"Low\", \"sentiment_score\": 0.7, \"tools_used\": []\x7d thanks"
        "BTC" =
      Except.ok ⟨"BTC", "Low", ⟨7, 1⟩, [], none⟩ := by
  refine ⟨?_, ?_, by rfl⟩
  · intro v hv
    rw [extract_json, hv]
  · intro e he
    constructor
    · intro i j hi hj
      rw [extract_json, he]
      dsimp only
      rw [hi, hj]
    · intro hn
      rw [extract_json, he]
      dsimp only
      rcases hn with hn | hn
      · rw [hn]
      · cases hfind : strFind text.data lbraceC with
        | none => rfl
        | some i => rw [hn]

/-- C5 witness: on text with no braces at all the routine's parse phase
raises the parse-error `ValueError` rather than crashing, by
`c5_strict_parse_then_one_substring_extraction` applied at
`"no json here"`. -/
theorem c5_witness :
    extract_json "no json here" =
      Except.error (PyError.valueError "Could not find valid JSON in agent output") :=
  ((c5_strict_parse_then_one_substring_extraction "no json here").2.1
    (PyError.valueError "JSONDecodeError: Expecting value") (by rfl)).2 (Or.inl (by rfl))

/-- C6: whenever the text parses to an object whose `sentiment_score`
member is a number outside `[0, 1]` or whose `risk_level` member is a
string outside `\x7bLow, Medium, High\x7d`, `_parse_and_validate_output`
raises (pydantic rejects the out-of-range score; `validate_risk_level`
raises on the enum violation) instead of returning a record. -/
theorem c6_out_of_range_score_or_bad_risk_rejected (text asset : String)
    (fields : List (String × JValue))
    (hparse : extract_json text = Except.ok (JValue.obj fields))
    (hbad :
      (∃ n : JNum, dictGet fields "sentiment_score" = some (JValue.num n) ∧
        ¬(0 ≤ n.val ∧ n.val ≤ 1)) ∨
      (∃ s : String, dictGet fields "risk_level" = some (JValue.str s) ∧
        s ≠ "Low" ∧ s ≠ "Medium" ∧ s ≠ "High")) :
    ∃ e, parse_and_validate_output text asset = Except.error e := by
  rw [parse_and_validate_output, hparse]
  dsimp only
  cases hc : constructOutput fields with
  | error e => exact ⟨e, rfl⟩
  | ok m =>
    obtain ⟨hsc, hunit, hrl⟩ := constructOutput_ok_spec hc
    rcases hbad with ⟨n, hn, hnu⟩ | ⟨s, hs, hs1, hs2, hs3⟩
    · exfalso
      rw [hn] at hsc
      have hns : n = m.sentiment_score := by
        injection Option.some.inj hsc
      rw [hns] at hnu
      exact hnu ((JNum.inUnit_iff m.sentiment_score).mp hunit)
    · rw [hs] at hrl
      have hms : m.risk_level = s := by
        simp [asPyStr] at hrl
        exact hrl.symm
      dsimp only
      rw [validate_risk_level,
        if_neg (by rw [hms]; rintro (h | h | h) <;> [exact hs1 h; exact hs2 h; exact hs3 h])]
      exact ⟨_, rfl⟩

/-- C6 witness: a well-formed JSON object carrying `sentiment_score` 1.5 is
rejected, by `c6_out_of_range_score_or_bad_risk_rejected` applied at that
concrete text. -/
theorem c6_witness :
    ∃ e, parse_and_validate_output
        "\x7b\"asset\": \"BTC\", \"risk_level\": \"Low\", \"sentiment_score\": 1.5, \"tools_used\": []\x7d"
        "BTC" = Except.error e :=
  c6_out_of_range_score_or_bad_risk_rejected _ "BTC"
    [("asset", JValue.str "BTC"), ("risk_level", JValue.str "Low"),
     ("sentiment_score", JValue.num ⟨15, 1⟩), ("tools_used", JValue.arr [])]
    (by rfl)
    (Or.inl ⟨⟨15, 1⟩, by rfl, by norm_num [JNum.val]⟩)

/-- C7: if the reasoning driver itself raises a non-validation error on the
current attempt, `research`'s loop surfaces it at once: the result is that
error and exactly one further reasoning invocation happened, however much
retry budget (`remaining`) was left. -/
theorem c7_driver_error_is_terminal (driver : Nat → DriverOutcome) (asset : String)
    (max_retries remaining attempt : Nat) (agent_steps : List AgentStep)
    (tool_calls : List ToolCall) (e : PyError)
    (hd : driver attempt = DriverOutcome.exn e)
    (hnv : ∀ m, e ≠ PyError.validationError m) :
    research_loop driver asset max_retries (remaining + 1) attempt agent_steps tool_calls =
      (Except.error e, 1) := by
  rw [research_loop, hd]
  cases e with
  | validationError m => exact absurd rfl (hnv m)
  | valueError m => rfl
  | otherError m => rfl

/-- C7 witness: a driver whose first invocation raises a non-validation
error makes `research` fail at once with one invocation despite a budget of
five attempts, by `c7_driver_error_is_terminal`. -/
theorem c7_witness :
    research_loop (fun _ => DriverOutcome.exn (PyError.otherError "boom")) "BTC" 5 5 0 [] [] =
      (Except.error (PyError.otherError "boom"), 1) :=
  c7_driver_error_is_terminal (fun _ => DriverOutcome.exn (PyError.otherError "boom"))
    "BTC" 5 4 0 [] [] (PyError.otherError "boom") (by rfl)
    (fun m h => PyError.noConfusion h)

/-- C8: validation is idempotent — any record `_parse_and_validate_output`
returns, serialized back to JSON (`json.dumps` of its `model_dump()`) and
fed through the routine with the same requested asset, validates again to
the identical record. -/
theorem c8_validation_idempotent (text asset : String) (r : MarketResearchOutput)
    (h : parse_and_validate_output text asset = Except.ok r) :
    parse_and_validate_output (dumps_record r) asset = Except.ok r := by
  obtain ⟨hr, hs, ha⟩ := parse_ok_invariants h
  exact revalidate_dumps r asset hr hs ha

/-- C8 witness: the record produced for the lowercase-echo text re-validates
to itself, by `c8_validation_idempotent` applied at that text. -/
theorem c8_witness :
    parse_and_validate_output
        (dumps_record ⟨"btc", "Low", ⟨8, 1⟩, ["get_market_price"], none⟩) "BTC" =
      Except.ok ⟨"btc", "Low", ⟨8, 1⟩, ["get_market_price"], none⟩ :=
  c8_validation_idempotent
    "\x7b\"asset\": \"btc\", \"risk_level\": \"Low\", \"sentiment_score\": 0.8, \"tools_used\": [\"get_market_price\"]\x7d"
    "BTC" ⟨"btc", "Low", ⟨8, 1⟩, ["get_market_price"], none⟩ (by rfl)

/-- C9: for every non-empty asset and any draws, both registered tools'
`execute` return a structured result (they are total functions of the
draws) whose `asset` echoes `asset.upper()`, and an asset outside
`mock_prices` falls back to the default `base = 1000`,
`volatility = "medium"` parameter set instead of failing. -/
theorem c9_tool_execute_total_with_fallback (asset : String) (hne : asset ≠ "")
    (p1 p2 p3 s1 s2 s3 s4 : ℚ) :
    (∃ res : MarketPriceResult, get_market_price_execute asset p1 p2 p3 = res ∧
      res.asset = pyUpper asset) ∧
    (∃ res : SentimentResult, get_internal_sentiment_execute asset s1 s2 s3 s4 = res ∧
      res.asset = pyUpper asset) ∧
    (pyUpper asset ∉ known_price_assets →
      (get_market_price_execute asset p1 p2 p3).price_usd = round2 (1000 + p1) ∧
      (get_market_price_execute asset p1 p2 p3).volatility = "medium") := by
  refine ⟨⟨_, rfl, rfl⟩, ⟨_, rfl, rfl⟩, ?_⟩
  intro hmem
  simp only [known_price_assets, List.mem_cons, List.not_mem_nil, or_false] at hmem
  push_neg at hmem
  obtain ⟨h1, h2, h3, h4⟩ := hmem
  have hm : mock_prices_get (pyUpper asset) = (1000, "medium") := by
    rw [mock_prices_get, if_neg h1, if_neg h2, if_neg h3, if_neg h4]
  constructor
  · simp [get_market_price_execute, hm]
  · simp [get_market_price_execute, hm]

/-- C9 witness: the unknown symbol `DOGE` gets the default parameter set and
both tools answer, by `c9_tool_execute_total_with_fallback`. -/
theorem c9_witness :
    (get_market_price_execute "DOGE" 1 2 3).volatility = "medium" ∧
    (get_internal_sentiment_execute "DOGE" (1/2) 0 0 0).asset = pyUpper "DOGE" := by
  have h := c9_tool_execute_total_with_fallback "DOGE" (by decide) 1 2 3 (1/2) 0 0 0
  refine ⟨(h.2.2 (by decide)).2, ?_⟩
  obtain ⟨res, he, ha⟩ := h.2.1
  rw [he]
  exact ha

/-- Any `research_loop` run that returns a value (rather than an error) has
`success = true` and `error = None`: the only `return` site of `research`
is line 130. -/
theorem research_loop_ok_flags (driver : Nat → DriverOutcome) (asset : String)
    (max_retries : Nat) :
    ∀ (remaining attempt : Nat) (steps : List AgentStep) (calls : List ToolCall)
      (res : ResearchResult),
      (research_loop driver asset max_retries remaining attempt steps calls).1 =
        Except.ok res →
      res.success = true ∧ res.error = none := by
  intro remaining
  induction remaining with
  | zero =>
    intro attempt steps calls res h
    rw [research_loop] at h
    exact Except.noConfusion h
  | succ rem ih =>
    intro attempt steps calls res h
    rw [research_loop] at h
    cases hd : driver attempt with
    | exn e =>
      rw [hd] at h
      cases e with
      | validationError m =>
        dsimp only at h
        by_cases hl : attempt = max_retries - 1
        · rw [if_pos hl] at h
          exact Except.noConfusion h
        · rw [if_neg hl] at h
          dsimp only at h
          exact ih (attempt + 1) steps calls res h
      | valueError m => exact Except.noConfusion h
      | otherError m => exact Except.noConfusion h
    | ret output_text isteps =>
      rw [hd] at h
      dsimp only at h
      cases hp : parse_and_validate_output output_text asset with
      | ok validated =>
        rw [hp] at h
        dsimp only at h
        cases h
        exact ⟨rfl, rfl⟩
      | error e =>
        rw [hp] at h
        cases e with
        | validationError m =>
          dsimp only at h
          by_cases hl : attempt = max_retries - 1
          · rw [if_pos hl] at h
            exact Except.noConfusion h
          · rw [if_neg hl] at h
            dsimp only at h
            exact ih (attempt + 1) _ _ res h
        | valueError m => exact Except.noConfusion h
        | otherError m => exact Except.noConfusion h

/-- C10: whenever `research` returns a value rather than raising, the
returned `ResearchResult` has `success = true` and `error = None` — no
code path returns a failed result, so failure is signalled exclusively by
a raised exception. -/
theorem c10_returned_result_always_success (driver : Nat → DriverOutcome) (asset : String)
    (max_retries : Nat) (res : ResearchResult)
    (h : research driver asset max_retries = Except.ok res) :
    res.success = true ∧ res.error = none :=
  research_loop_ok_flags driver asset max_retries max_retries 0 [] [] res h

/-- Driver used for the C10 witness: every attempt succeeds at once. -/
def driver_c10 : Nat → DriverOutcome := fun _ =>
  DriverOutcome.ret
    "\x7b\"asset\": \"BTC\", \"risk_level\": \"Low\", \"sentiment_score\": 1, \"tools_used\": []\x7d"
    []

/-- C10 witness: the result of a successful concrete run has
`success = true`, `error = None`, by `c10_returned_result_always_success`. -/
theorem c10_witness :
    (⟨⟨"BTC", "Low", ⟨1, 0⟩, [], none⟩, [], [], true, none⟩ : ResearchResult).success = true ∧
    (⟨⟨"BTC", "Low", ⟨1, 0⟩, [], none⟩, [], [], true, none⟩ : ResearchResult).error = none :=
  c10_returned_result_always_success driver_c10 "BTC" 3
    ⟨⟨"BTC", "Low", ⟨1, 0⟩, [], none⟩, [], [], true, none⟩ (by rfl)

end MarketAgent
